import Mathlib

/-!
Verification of the classification-restriction engine
(`src/transform/classif_restrictor.py`).

The engine's data is embedded shallowly:
* a marking ("ISM") is a record of its classification symbol, control lists,
  releasability list and banner text; a Python `None`/empty marking dict is
  `Option.none`;
* the policy configuration is a record of the forbidden lists, the
  classification-ordinal table and the special releasability groups;
* a document is a tree of mappings, sequences and scalars; a mapping whose
  `ism` key holds marking data is modelled with a dedicated `Doc.ismv`
  constructor for the marking-shaped dictionary.

Python `set(..)` operations on lists are modelled by duplicate-ignoring list
operations; Python's substring test `a in b` is modelled by `occursIn`.
-/

/-- Python `needle in hay` on lists of characters: `needle` occurs as a
contiguous sublist of `hay`. -/
def occursInChars (needle : List Char) : List Char → Bool
  | [] => needle.isEmpty
  | c :: t => needle.isPrefixOf (c :: t) || occursInChars needle t

/-- Python `needle in hay` for strings. -/
def occursIn (needle hay : String) : Bool :=
  occursInChars needle.data hay.data

/-- Python `bool(set(a) & set(b))`: the two lists share an element. -/
def interNonempty (a b : List String) : Bool :=
  a.any (fun x => b.contains x)

/-- Python `set(a) & set(b)` as a duplicate-free list. -/
def setInter (a b : List String) : List String :=
  (a.filter (fun x => b.contains x)).dedup

/-- Python `set(a) == set(b)`. -/
def setEq (a b : List String) : Bool :=
  a.all (fun x => b.contains x) && b.all (fun x => a.contains x)

/-- Python `len(set(a))`. -/
def setCard (a : List String) : Nat :=
  a.dedup.length

/-- Python `str.upper()` (ASCII): upper-case each character. -/
def pyUpper (s : String) : String :=
  ⟨s.data.map Char.toUpper⟩

/-- Python `d.get(k, 0)` on the classification-ordinal table. -/
def lookupOrd (m : List (String × Int)) (k : String) : Int :=
  match m.find? (fun p => p.1 == k) with
  | some p => p.2
  | none => 0

/-- A normalized security marking (the `ism` dictionary of the source).
Missing dictionary entries are `none` / `[]`. -/
structure Ism where
  classification : Option String
  sciControls : List String
  disseminationControls : List String
  releasableTo : List String
  banner : Option String
deriving DecidableEq, Repr

/-- The classification policy configuration (the `config` dictionary). -/
structure Config where
  forbidden_sci : List String
  forbidden_controls : List String
  forbidden_terms : List String
  special_groups : List String
  classifications : List (String × Int)
deriving DecidableEq, Repr

/-- `is_classif_too_high` of the source: a falsy (absent/empty) marking is not
too high; otherwise the marking is too high when its classification is `TS`,
when it carries a forbidden SCI control or a forbidden dissemination control,
or when a forbidden term occurs in the upper-cased banner. -/
def is_classif_too_high (ism : Option Ism) (config : Config) : Bool :=
  match ism with
  | none => false
  | some i =>
    i.classification == some "TS"
    || interNonempty i.sciControls config.forbidden_sci
    || interNonempty i.disseminationControls config.forbidden_controls
    || config.forbidden_terms.any
        (fun term => occursIn term (pyUpper (i.banner.getD "")))

/-- `is_more_restrictive` of the source: FGI tier, then NOFORN tier, then (for
two `REL` markings) the releasability tier, else the classification-ordinal
tier. Absent markings are never more restrictive. -/
def is_more_restrictive (ism1 ism2 : Option Ism) (config : Config) : Bool :=
  match ism1, ism2 with
  | some i1, some i2 =>
    let ism1_fgi := i1.sciControls.any (fun c => "FGI".isPrefixOf c)
    let ism2_fgi := i2.sciControls.any (fun c => "FGI".isPrefixOf c)
    if ism1_fgi != ism2_fgi then ism1_fgi
    else
      let ism1_noforn := i1.disseminationControls.contains "NOFORN"
      let ism2_noforn := i2.disseminationControls.contains "NOFORN"
      if ism1_noforn != ism2_noforn then ism1_noforn
      else
        let rel1 := i1.disseminationControls.contains "REL"
        let rel2 := i2.disseminationControls.contains "REL"
        if rel1 && rel2 then
          let ism1_release := i1.releasableTo
          let ism2_release := i2.releasableTo
          let ism1_groups := setInter ism1_release config.special_groups
          let ism2_groups := setInter ism2_release config.special_groups
          if !(setEq ism1_groups ism2_groups) then
            decide (ism1_groups.length < ism2_groups.length)
          else
            decide (setCard ism1_release < setCard ism2_release)
        else
          decide (lookupOrd config.classifications (i1.classification.getD "U")
            > lookupOrd config.classifications (i2.classification.getD "U"))
  | _, _ => false

-- scratch sanity checks (to be pruned later if needed)
example : occursIn "BC" "ABCD" = true := by decide
example : occursIn "bc" "ABCD" = false := by decide
example : occursIn "" "A" = true := by decide
example :
    is_classif_too_high
      (some ⟨some "C", [], [], [], some "secret"⟩)
      ⟨[], [], ["secret"], [], [("U",0),("C",1),("S",2)]⟩ = false := by decide
example :
    is_classif_too_high
      (some ⟨some "C", [], [], [], some "secret"⟩)
      ⟨[], [], ["SECRET"], [], [("U",0),("C",1),("S",2)]⟩ = true := by decide
example :
    is_more_restrictive
      (some ⟨some "S", [], ["REL"], ["AAA"], none⟩)
      (some ⟨some "U", [], ["REL"], ["BBB"], none⟩)
      ⟨[], [], [], [], [("U",0),("C",1),("S",2)]⟩ = false := by decide
example :
    is_more_restrictive
      (some ⟨some "S", [], [], [], none⟩)
      (some ⟨some "U", [], [], [], none⟩)
      ⟨[], [], [], [], [("U",0),("C",1),("S",2)]⟩ = true := by decide

/-- A document node: a keyed mapping, a sequence, a scalar string, Python
`None`, or a marking-shaped dictionary (`Doc.ismv m`; `m = none` models a
falsy marking value such as `None` or `{}`). A non-mapping value stored under
an `ism` key would crash the Python source (malformed document, out of scope);
`asIsm` treats it as absent. -/
inductive Doc where
  | dict : List (String × Doc) → Doc
  | arr : List Doc → Doc
  | str : String → Doc
  | null : Doc
  | ismv : Option Ism → Doc
deriving Repr

/-- The marking carried by the value of an `ism` key, if any. -/
def asIsm : Doc → Option Ism
  | .ismv m => m
  | _ => none

/-- Python `d.get(k)` on a mapping's entry list (first matching key). -/
def keyFind (l : List (String × Doc)) (k : String) : Option Doc :=
  match l.find? (fun p => p.1 == k) with
  | some p => some p.2
  | none => none

mutual
/-- Size of a document tree (for termination of the stack traversal). -/
def Doc.size : Doc → Nat
  | .dict l => 1 + entriesSize l
  | .arr xs => 1 + docsSize xs
  | .str _ => 1
  | .null => 1
  | .ismv _ => 1

/-- Total size of the values of a mapping's entries. -/
def entriesSize : List (String × Doc) → Nat
  | [] => 0
  | p :: t => p.2.size + entriesSize t

/-- Total size of a list of documents. -/
def docsSize : List Doc → Nat
  | [] => 0
  | d :: t => d.size + docsSize t
end

theorem Doc.size_pos (d : Doc) : 1 ≤ d.size := by
  cases d <;> simp [Doc.size]

theorem docsSize_append (a b : List Doc) :
    docsSize (a ++ b) = docsSize a + docsSize b := by
  induction a with
  | nil => simp [docsSize]
  | cons d t ih => simp [docsSize, ih]; omega

theorem docsSize_reverse (a : List Doc) :
    docsSize a.reverse = docsSize a := by
  induction a with
  | nil => rfl
  | cons d t ih => simp [docsSize, List.reverse_cons, docsSize_append, ih]; omega

theorem docsSize_map_snd (l : List (String × Doc)) :
    docsSize (l.map Prod.snd) = entriesSize l := by
  induction l with
  | nil => rfl
  | cons p t ih => simp [docsSize, entriesSize, ih]

/-- The body of `find_most_restrictive_valid_ism`'s `while stack:` loop. The
Lean stack is the reverse of the Python list (`pop()` takes the head; pushing
a node's children prepends them reversed). A dictionary node contributes its
`ism` value as a candidate when that value is truthy and not too high — with
the source's early return when an admitted candidate is classified `TS` — and
its values are pushed; list elements are pushed; scalars are skipped. -/
def find_loop (config : Config) (stack : List Doc) (best : Option Ism) :
    Option Ism :=
  match stack with
  | [] => best
  | item :: rest =>
    match item with
    | .dict l =>
      match asIsm (keyFind l "ism" |>.getD .null) with
      | some i =>
        if is_classif_too_high (some i) config then
          find_loop config ((l.map Prod.snd).reverse ++ rest) best
        else if i.classification == some "TS" then some i
        else if best.isNone || is_more_restrictive (some i) best config then
          find_loop config ((l.map Prod.snd).reverse ++ rest) (some i)
        else
          find_loop config ((l.map Prod.snd).reverse ++ rest) best
      | none => find_loop config ((l.map Prod.snd).reverse ++ rest) best
    | .arr xs => find_loop config (xs.reverse ++ rest) best
    | _ => find_loop config rest best
termination_by docsSize stack
decreasing_by
  all_goals
    simp [docsSize, Doc.size, docsSize_append, docsSize_reverse, docsSize_map_snd]
  all_goals exact Doc.size_pos _

/-- `find_most_restrictive_valid_ism` of the source. -/
def find_most_restrictive_valid_ism (obj : Doc) (config : Config) :
    Option Ism :=
  find_loop config [obj] none

mutual
/-- `process_item` of the source (the inner closure of `apply_restrictions`):
a mapping whose `ism` value is too high becomes `None`; other mappings and
sequences are rebuilt from recursively processed children; everything else
passes through unchanged. -/
def process_item (config : Config) : Doc → Doc
  | .dict l =>
    match keyFind l "ism" with
    | some v =>
      if is_classif_too_high (asIsm v) config then .null
      else .dict (processEntries config l)
    | none => .dict (processEntries config l)
  | .arr xs => .arr (processDocs config xs)
  | d => d

/-- `process_item` applied to each value of a mapping's entries. -/
def processEntries (config : Config) : List (String × Doc) → List (String × Doc)
  | [] => []
  | p :: t => (p.1, process_item config p.2) :: processEntries config t

/-- `process_item` applied to each element of a sequence. -/
def processDocs (config : Config) : List Doc → List Doc
  | [] => []
  | d :: t => process_item config d :: processDocs config t
end

/-- Python `d[k] = v` on a mapping: overwrite the existing entry in place,
else append a new entry. -/
def setKey (l : List (String × Doc)) (k : String) (v : Doc) :
    List (String × Doc) :=
  if l.any (fun p => p.1 == k) then
    l.map (fun p => if p.1 == k then (k, v) else p)
  else l ++ [(k, v)]

/-- `apply_restrictions` of the source: locate the most restrictive admissible
marking (returning `none` when there is none), prune with `process_item`, and
stamp `overallClassification` when the pruned root is still a mapping. A
`Doc.null` result of pruning is the Python `None` return value. -/
def apply_restrictions (standard_object : Doc) (config : Config) :
    Option Doc :=
  match find_most_restrictive_valid_ism standard_object config with
  | none => none
  | some m =>
    match process_item config standard_object with
    | .dict l => some (.dict (setKey l "overallClassification" (.ismv (some m))))
    | .null => none
    | d => some d

/-- The mapping with entries `l` carries a forbidden marking: it has an `ism`
key whose value is a marking that is too high (`process_item`'s prune test). -/
def dictForbidden (config : Config) (l : List (String × Doc)) : Bool :=
  match keyFind l "ism" with
  | some v => is_classif_too_high (asIsm v) config
  | none => false

mutual
/-- No mapping node anywhere in the document carries a forbidden marking. -/
def forbiddenFree (config : Config) : Doc → Bool
  | .dict l => !dictForbidden config l && entriesFF config l
  | .arr xs => docsFF config xs
  | _ => true

/-- `forbiddenFree` over all entry values of a mapping. -/
def entriesFF (config : Config) : List (String × Doc) → Bool
  | [] => true
  | p :: t => forbiddenFree config p.2 && entriesFF config t

/-- `forbiddenFree` over a list of documents. -/
def docsFF (config : Config) : List Doc → Bool
  | [] => true
  | d :: t => forbiddenFree config d && docsFF config t
end

/-- The admissible candidate a mapping node offers to the locator: its truthy
`ism` value when that marking is not too high. -/
def dictCandidate (config : Config) (l : List (String × Doc)) : Option Ism :=
  match asIsm (keyFind l "ism" |>.getD .null) with
  | some i => if is_classif_too_high (some i) config then none else some i
  | none => none

mutual
/-- The document offers no admissible marking anywhere (every embedded
marking is falsy or forbidden, or none exists). -/
def noAdmissible (config : Config) : Doc → Bool
  | .dict l => (dictCandidate config l).isNone && entriesNoAdm config l
  | .arr xs => docsNoAdm config xs
  | _ => true

/-- `noAdmissible` over all entry values of a mapping. -/
def entriesNoAdm (config : Config) : List (String × Doc) → Bool
  | [] => true
  | p :: t => noAdmissible config p.2 && entriesNoAdm config t

/-- `noAdmissible` over a list of documents. -/
def docsNoAdm (config : Config) : List Doc → Bool
  | [] => true
  | d :: t => noAdmissible config d && docsNoAdm config t
end

-- scratch: concrete evaluation through the equation lemmas
example :
    find_most_restrictive_valid_ism
      (.dict [("ism", .ismv (some ⟨some "C", [], [], [], none⟩))])
      ⟨[], [], [], [], [("U",0),("C",1),("S",2)]⟩
      = some ⟨some "C", [], [], [], none⟩ := by
  simp [find_most_restrictive_valid_ism, find_loop, keyFind, asIsm,
    is_classif_too_high, interNonempty]

example :
    apply_restrictions
      (.dict [("ism", .ismv (some ⟨some "C", [], [], [], none⟩))])
      ⟨[], [], [], [], [("U",0),("C",1),("S",2)]⟩
      = some (.dict [("ism", .ismv (some ⟨some "C", [], [], [], none⟩)),
          ("overallClassification", .ismv (some ⟨some "C", [], [], [], none⟩))]) := by
  simp [apply_restrictions, find_most_restrictive_valid_ism, find_loop,
    keyFind, asIsm, is_classif_too_high, interNonempty, process_item,
    processEntries, setKey]

theorem setEq_refl (a : List String) : setEq a a = true := by
  simp [setEq, List.all_eq_true]

/-- Claim C9: the restrictiveness comparator is irreflexive — for every
marking (including an absent one) and every policy,
`is_more_restrictive a a config` is `false`. -/
theorem c9_comparator_irreflexive (a : Option Ism) (config : Config) :
    is_more_restrictive a a config = false := by
  cases a with
  | none => rfl
  | some i => simp [is_more_restrictive, setEq_refl]

/-- Case-insensitive substring occurrence as the spec words it: the term
occurs in the banner ignoring the letter case of both sides. -/
def ciOccurs (term banner : String) : Bool :=
  occursIn (pyUpper term) (pyUpper banner)

/-- Claim C2, counterexample: the term `secret` occurs case-insensitively in
the banner `secret`, yet `is_classif_too_high` is `false`, because the source
upper-cases only the banner and matches the term verbatim. -/
theorem c2_counterexample :
    ciOccurs "secret" "secret" = true ∧
    is_classif_too_high (some ⟨none, [], [], [], some "secret"⟩)
      ⟨[], [], ["secret"], [], []⟩ = false := by
  constructor <;> decide

/-- Claim C2 (amended): `is_classif_too_high` returns `true` whenever some
forbidden term occurs verbatim as a substring of the upper-cased banner (an
absent banner being the empty string) — the match is case-insensitive in the
banner only; a term containing lower-case letters never matches. -/
theorem c2_forbidden_term_match (i : Ism) (config : Config)
    (h : config.forbidden_terms.any
      (fun term => occursIn term (pyUpper (i.banner.getD ""))) = true) :
    is_classif_too_high (some i) config = true := by
  simp [is_classif_too_high, h]

theorem c2_forbidden_term_match_witness :
    ((⟨[], [], ["SECRET"], [], []⟩ : Config).forbidden_terms.any
      (fun term => occursIn term
        (pyUpper ((⟨none, [], [], [], some "secret"⟩ : Ism).banner.getD ""))) = true) ∧
    is_classif_too_high (some ⟨none, [], [], [], some "secret"⟩)
      ⟨[], [], ["SECRET"], [], []⟩ = true :=
  ⟨by decide, c2_forbidden_term_match _ _ (by decide)⟩

/-- Claim C3, counterexample: two markings that both carry `REL` and are tied
at the releasability tier (equal special-group intersections, equal
releasability set sizes) with a strictly higher classification ordinal on the
first are nevertheless not more restrictive — the source returns from the
releasability tier without consulting the classification tier. -/
theorem c3_counterexample :
    (⟨some "S", [], ["REL"], ["AAA"], none⟩ : Ism).disseminationControls.contains "REL" = true ∧
    (⟨some "U", [], ["REL"], ["BBB"], none⟩ : Ism).disseminationControls.contains "REL" = true ∧
    setEq (setInter ["AAA"] []) (setInter ["BBB"] []) = true ∧
    setCard ["AAA"] = setCard ["BBB"] ∧
    lookupOrd [("U",0),("C",1),("S",2)] "S" > lookupOrd [("U",0),("C",1),("S",2)] "U" ∧
    is_more_restrictive
      (some ⟨some "S", [], ["REL"], ["AAA"], none⟩)
      (some ⟨some "U", [], ["REL"], ["BBB"], none⟩)
      ⟨[], [], [], [], [("U",0),("C",1),("S",2)]⟩ = false := by
  refine ⟨by decide, by decide, by decide, by decide, by decide, by decide⟩

/-- Claim C3 (amended): for two non-absent markings that are tied at the FGI
and NOFORN tiers and both carry `REL`, a tie at the releasability tier (equal
special-group intersections and equal releasability set sizes) makes
`is_more_restrictive` return `false` outright: the releasability tier is
terminal for REL/REL pairs and the classification tier is never consulted. -/
theorem c3_rel_tie_terminal (i1 i2 : Ism) (config : Config)
    (hfgi : i1.sciControls.any (fun c => "FGI".isPrefixOf c)
      = i2.sciControls.any (fun c => "FGI".isPrefixOf c))
    (hnof : i1.disseminationControls.contains "NOFORN"
      = i2.disseminationControls.contains "NOFORN")
    (hrel1 : i1.disseminationControls.contains "REL" = true)
    (hrel2 : i2.disseminationControls.contains "REL" = true)
    (hg : setEq (setInter i1.releasableTo config.special_groups)
      (setInter i2.releasableTo config.special_groups) = true)
    (hc : setCard i1.releasableTo = setCard i2.releasableTo) :
    is_more_restrictive (some i1) (some i2) config = false := by
  simp only [is_more_restrictive]
  rw [hfgi, hnof, hrel1, hrel2]
  simp only [bne_self_eq_false, Bool.false_eq_true, if_false, Bool.and_self, if_true]
  rw [hg]
  simp only [Bool.not_true, Bool.false_eq_true, if_false]
  rw [hc]
  simp

theorem c3_rel_tie_terminal_witness :
    ((⟨some "S", [], ["REL"], ["AAA"], none⟩ : Ism).sciControls.any (fun c => "FGI".isPrefixOf c)
      = (⟨some "U", [], ["REL"], ["BBB"], none⟩ : Ism).sciControls.any (fun c => "FGI".isPrefixOf c)) ∧
    is_more_restrictive
      (some ⟨some "S", [], ["REL"], ["AAA"], none⟩)
      (some ⟨some "U", [], ["REL"], ["BBB"], none⟩)
      ⟨[], [], [], [], [("U",0),("C",1),("S",2)]⟩ = false :=
  ⟨by decide, c3_rel_tie_terminal _ _ _ (by decide) (by decide) (by decide)
    (by decide) (by decide) (by decide)⟩

theorem processEntries_eq_map (config : Config) (l : List (String × Doc)) :
    processEntries config l = l.map (fun p => (p.1, process_item config p.2)) := by
  induction l with
  | nil => rfl
  | cons p t ih => simp [processEntries, ih]

theorem processDocs_eq_map (config : Config) (xs : List Doc) :
    processDocs config xs = xs.map (process_item config) := by
  induction xs with
  | nil => rfl
  | cons d t ih => simp [processDocs, ih]

theorem asIsm_process (config : Config) (v : Doc) :
    asIsm (process_item config v) = asIsm v := by
  cases v with
  | dict l =>
    simp only [process_item]
    cases hk : keyFind l "ism" with
    | none => simp [hk, asIsm]
    | some w =>
      simp only [hk]
      cases ht : is_classif_too_high (asIsm w) config <;> simp [ht, asIsm]
  | arr xs => rfl
  | str s => rfl
  | null => rfl
  | ismv m => rfl

theorem keyFind_processEntries (config : Config) (l : List (String × Doc))
    (k : String) :
    keyFind (processEntries config l) k
      = (keyFind l k).map (process_item config) := by
  induction l with
  | nil => rfl
  | cons p t ih =>
    simp only [processEntries, keyFind, List.find?]
    cases hk : (p.1 == k) with
    | true => simp
    | false => simpa [keyFind] using ih

theorem dictForbidden_processEntries (config : Config)
    (l : List (String × Doc)) :
    dictForbidden config (processEntries config l) = dictForbidden config l := by
  simp only [dictForbidden, keyFind_processEntries]
  cases keyFind l "ism" with
  | none => rfl
  | some v => simp [asIsm_process]

mutual
theorem process_forbiddenFree (config : Config) (d : Doc) :
    forbiddenFree config (process_item config d) = true := by
  cases d with
  | dict l =>
    simp only [process_item]
    cases hk : keyFind l "ism" with
    | none =>
      have hd : dictForbidden config l = false := by simp [dictForbidden, hk]
      simp [hk, forbiddenFree, dictForbidden_processEntries, hd,
        processEntries_ff config l]
    | some v =>
      cases ht : is_classif_too_high (asIsm v) config with
      | true => simp [hk, ht, forbiddenFree]
      | false =>
        have hd : dictForbidden config l = false := by
          simp [dictForbidden, hk, ht]
        simp [hk, ht, forbiddenFree, dictForbidden_processEntries, hd,
          processEntries_ff config l]
  | arr xs => simp [process_item, forbiddenFree, processDocs_ff config xs]
  | str s => rfl
  | null => rfl
  | ismv m => rfl

theorem processEntries_ff (config : Config) (l : List (String × Doc)) :
    entriesFF config (processEntries config l) = true := by
  cases l with
  | nil => rfl
  | cons p t =>
    simp [processEntries, entriesFF, process_forbiddenFree config p.2,
      processEntries_ff config t]

theorem processDocs_ff (config : Config) (xs : List Doc) :
    docsFF config (processDocs config xs) = true := by
  cases xs with
  | nil => rfl
  | cons d t =>
    simp [processDocs, docsFF, process_forbiddenFree config d,
      processDocs_ff config t]
end

theorem process_item_dict (config : Config) (l : List (String × Doc)) :
    process_item config (.dict l)
      = (if dictForbidden config l then Doc.null
         else .dict (processEntries config l)) := by
  cases hd : dictForbidden config l with
  | true =>
    simp only [dictForbidden] at hd
    simp only [process_item, if_true]
    cases hk : keyFind l "ism" with
    | none => rw [hk] at hd; simp at hd
    | some v => rw [hk] at hd; simp at hd; simp [hd]
  | false =>
    simp only [dictForbidden] at hd
    simp only [process_item]
    cases hk : keyFind l "ism" with
    | none => simp [hk]
    | some v => rw [hk] at hd; simp at hd; simp [hk, hd]

/-- Claim C1: pruning — a mapping node carrying a forbidden marking is
replaced by absent as a whole, mappings and sequences without a forbidden
marking are rebuilt from recursively processed children, scalars pass through
unchanged, and consequently the output of the pruning pass contains no
mapping node carrying a forbidden marking. -/
theorem c1_pruning (config : Config) (l : List (String × Doc)) (xs : List Doc)
    (s : String) (d : Doc) :
    process_item config (.dict l)
      = (if dictForbidden config l then .null
         else .dict (l.map (fun p => (p.1, process_item config p.2)))) ∧
    process_item config (.arr xs) = .arr (xs.map (process_item config)) ∧
    process_item config (.str s) = .str s ∧
    forbiddenFree config (process_item config d) = true := by
  refine ⟨?_, ?_, rfl, process_forbiddenFree config d⟩
  · rw [process_item_dict, processEntries_eq_map]
  · simp [process_item, processDocs_eq_map]

/-- Claim C10: if the root mapping itself carries a forbidden marking, the
whole root is pruned to absent and `apply_restrictions` returns the empty
result, whatever the locator found. -/
theorem c10_forbidden_root (l : List (String × Doc)) (config : Config)
    (h : dictForbidden config l = true) :
    apply_restrictions (.dict l) config = none := by
  have hp : process_item config (.dict l) = .null := by
    rw [process_item_dict, h]
    simp
  simp only [apply_restrictions]
  cases hf : find_most_restrictive_valid_ism (.dict l) config with
  | none => rfl
  | some m => simp [hp]

theorem c10_forbidden_root_witness :
    dictForbidden ⟨[], [], [], [], [("U",0),("C",1),("S",2)]⟩
      [("ism", .ismv (some ⟨some "TS", [], [], [], none⟩)),
       ("child", .dict [("ism", .ismv (some ⟨some "C", [], [], [], none⟩))])] = true ∧
    find_most_restrictive_valid_ism
      (.dict [("ism", .ismv (some ⟨some "TS", [], [], [], none⟩)),
        ("child", .dict [("ism", .ismv (some ⟨some "C", [], [], [], none⟩))])])
      ⟨[], [], [], [], [("U",0),("C",1),("S",2)]⟩
      = some ⟨some "C", [], [], [], none⟩ ∧
    apply_restrictions
      (.dict [("ism", .ismv (some ⟨some "TS", [], [], [], none⟩)),
        ("child", .dict [("ism", .ismv (some ⟨some "C", [], [], [], none⟩))])])
      ⟨[], [], [], [], [("U",0),("C",1),("S",2)]⟩ = none :=
  ⟨by decide,
   by simp [find_most_restrictive_valid_ism, find_loop, keyFind, asIsm,
      is_classif_too_high, interNonempty],
   c10_forbidden_root _ _ (by decide)⟩

theorem find_loop_not_too_high (config : Config) :
    ∀ (stack : List Doc) (best : Option Ism),
      (∀ b, best = some b → is_classif_too_high (some b) config = false) →
      ∀ m, find_loop config stack best = some m →
      is_classif_too_high (some m) config = false := by
  intro stack best
  induction stack, best using find_loop.induct with
  | config => exact config
  | case1 best =>
    intro hb m h
    rw [find_loop] at h
    exact hb m h
  | case2 best t l i hi ht ih =>
    intro hb m h
    rw [find_loop] at h
    simp [hi, ht] at h
    exact ih hb m h
  | case3 best t l i hi ht hts =>
    intro hb m h
    rw [find_loop] at h
    simp [hi, ht, hts] at h
    subst h
    simpa using ht
  | case4 best t l i hi ht hts hbetter ih =>
    intro hb m h
    rw [find_loop] at h
    simp [hi, ht, hts, hbetter] at h
    refine ih ?_ m h
    intro b hb2
    cases hb2
    simpa using ht
  | case5 best t l i hi ht hts hbetter ih =>
    intro hb m h
    rw [find_loop] at h
    simp [hi, ht, hts, hbetter] at h
    exact ih hb m h
  | case6 best t l hi ih =>
    intro hb m h
    rw [find_loop] at h
    simp only [hi] at h
    exact ih hb m h
  | case7 best t xs ih =>
    intro hb m h
    rw [find_loop] at h
    exact ih hb m h
  | case8 best d t hd ha ih =>
    intro hb m h
    rw [find_loop] at h
    · exact ih hb m h
    · exact hd
    · exact ha

theorem noAdm_dict (config : Config) (l : List (String × Doc)) :
    noAdmissible config (.dict l)
      = ((dictCandidate config l).isNone && entriesNoAdm config l) := by
  simp [noAdmissible]

theorem entriesNoAdm_mem (config : Config) :
    ∀ {l : List (String × Doc)}, entriesNoAdm config l = true →
      ∀ p ∈ l, noAdmissible config p.2 = true := by
  intro l
  induction l with
  | nil => intro _ p hp; cases hp
  | cons q t ih =>
    intro h p hp
    rw [entriesNoAdm] at h
    rcases List.mem_cons.1 hp with rfl | hp
    · exact (Bool.and_eq_true_iff.1 h).1
    · exact ih (Bool.and_eq_true_iff.1 h).2 p hp

theorem docsNoAdm_mem (config : Config) :
    ∀ {xs : List Doc}, docsNoAdm config xs = true →
      ∀ d ∈ xs, noAdmissible config d = true := by
  intro xs
  induction xs with
  | nil => intro _ d hd; cases hd
  | cons q t ih =>
    intro h d hd
    rw [docsNoAdm] at h
    rcases List.mem_cons.1 hd with rfl | hd
    · exact (Bool.and_eq_true_iff.1 h).1
    · exact ih (Bool.and_eq_true_iff.1 h).2 d hd

theorem entriesNoAdm_false (config : Config) :
    ∀ {l : List (String × Doc)}, entriesNoAdm config l = false →
      ∃ p ∈ l, noAdmissible config p.2 = false := by
  intro l
  induction l with
  | nil => intro h; rw [entriesNoAdm] at h; cases h
  | cons q t ih =>
    intro h
    rw [entriesNoAdm, Bool.and_eq_false_iff] at h
    rcases h with h | h
    · exact ⟨q, List.mem_cons_self _ _, h⟩
    · obtain ⟨p, hp, hpf⟩ := ih h
      exact ⟨p, List.mem_cons_of_mem _ hp, hpf⟩

theorem docsNoAdm_false (config : Config) :
    ∀ {xs : List Doc}, docsNoAdm config xs = false →
      ∃ d ∈ xs, noAdmissible config d = false := by
  intro xs
  induction xs with
  | nil => intro h; rw [docsNoAdm] at h; cases h
  | cons q t ih =>
    intro h
    rw [docsNoAdm, Bool.and_eq_false_iff] at h
    rcases h with h | h
    · exact ⟨q, List.mem_cons_self _ _, h⟩
    · obtain ⟨d, hd, hdf⟩ := ih h
      exact ⟨d, List.mem_cons_of_mem _ hd, hdf⟩

theorem noAdm_stack_dict (config : Config) {l : List (String × Doc)}
    {t : List Doc}
    (h : ∀ d ∈ (Doc.dict l :: t), noAdmissible config d = true) :
    ∀ d ∈ (l.map Prod.snd).reverse ++ t, noAdmissible config d = true := by
  intro d hd
  rcases List.mem_append.1 hd with hd | hd
  · rw [List.mem_reverse] at hd
    rcases List.mem_map.1 hd with ⟨p, hp, rfl⟩
    have h0 := h _ (List.mem_cons_self _ _)
    rw [noAdm_dict, Bool.and_eq_true_iff] at h0
    exact entriesNoAdm_mem config h0.2 p hp
  · exact h _ (List.mem_cons_of_mem _ hd)

theorem noAdm_stack_arr (config : Config) {xs t : List Doc}
    (h : ∀ d ∈ (Doc.arr xs :: t), noAdmissible config d = true) :
    ∀ d ∈ xs.reverse ++ t, noAdmissible config d = true := by
  intro d hd
  rcases List.mem_append.1 hd with hd | hd
  · rw [List.mem_reverse] at hd
    have h0 := h _ (List.mem_cons_self _ _)
    rw [noAdmissible] at h0
    exact docsNoAdm_mem config h0 d hd
  · exact h _ (List.mem_cons_of_mem _ hd)

theorem find_loop_all_noAdm (config : Config) :
    ∀ (stack : List Doc) (best : Option Ism),
      (∀ d ∈ stack, noAdmissible config d = true) →
      find_loop config stack best = best := by
  intro stack best
  induction stack, best using find_loop.induct with
  | config => exact config
  | case1 best => intro _; rw [find_loop]
  | case2 best t l i hi ht ih =>
    intro h
    rw [find_loop]
    simp only [hi, ht, if_true]
    exact ih (noAdm_stack_dict config h)
  | case3 best t l i hi ht hts =>
    intro h
    have h0 := h _ (List.mem_cons_self _ _)
    rw [noAdm_dict] at h0
    simp [dictCandidate, hi, ht] at h0
  | case4 best t l i hi ht hts hbetter ih =>
    intro h
    have h0 := h _ (List.mem_cons_self _ _)
    rw [noAdm_dict] at h0
    simp [dictCandidate, hi, ht] at h0
  | case5 best t l i hi ht hts hbetter ih =>
    intro h
    have h0 := h _ (List.mem_cons_self _ _)
    rw [noAdm_dict] at h0
    simp [dictCandidate, hi, ht] at h0
  | case6 best t l hi ih =>
    intro h
    rw [find_loop]
    simp only [hi]
    exact ih (noAdm_stack_dict config h)
  | case7 best t xs ih =>
    intro h
    rw [find_loop]
    exact ih (noAdm_stack_arr config h)
  | case8 best d t hd ha ih =>
    intro h
    rw [find_loop]
    · exact ih (fun d hd => h _ (List.mem_cons_of_mem _ hd))
    · exact hd
    · exact ha

theorem find_loop_isSome_of_best (config : Config) :
    ∀ (stack : List Doc) (best : Option Ism),
      best.isSome = true →
      (find_loop config stack best).isSome = true := by
  intro stack best
  induction stack, best using find_loop.induct with
  | config => exact config
  | case1 best => intro h; rw [find_loop]; exact h
  | case2 best t l i hi ht ih =>
    intro h
    rw [find_loop]
    simp only [hi, ht, if_true]
    exact ih h
  | case3 best t l i hi ht hts =>
    intro h
    rw [find_loop]
    simp [hi, ht, hts]
  | case4 best t l i hi ht hts hbetter ih =>
    intro h
    rw [find_loop]
    simp only [hi, ht, hts, hbetter]
    simp only [Bool.not_eq_true] at ht hts
    simp [ht, hts, hbetter]
    exact ih rfl
  | case5 best t l i hi ht hts hbetter ih =>
    intro h
    rw [find_loop]
    simp only [Bool.not_eq_true] at ht hts hbetter
    simp [hi, ht, hts, hbetter]
    exact ih h
  | case6 best t l hi ih =>
    intro h
    rw [find_loop]
    simp only [hi]
    exact ih h
  | case7 best t xs ih =>
    intro h
    rw [find_loop]
    exact ih h
  | case8 best d t hd ha ih =>
    intro h
    rw [find_loop]
    · exact ih h
    · exact hd
    · exact ha

theorem find_loop_isSome_of_exists (config : Config) :
    ∀ (stack : List Doc) (best : Option Ism),
      (∃ d ∈ stack, noAdmissible config d = false) →
      (find_loop config stack best).isSome = true := by
  intro stack best
  induction stack, best using find_loop.induct with
  | config => exact config
  | case1 best => rintro ⟨d, hd, _⟩; cases hd
  | case2 best t l i hi ht ih =>
    rintro ⟨d, hd, hna⟩
    rw [find_loop]
    simp only [hi, ht, if_true]
    refine ih ?_
    rcases List.mem_cons.1 hd with rfl | hd
    · have hc : (dictCandidate config l).isNone = true := by
        simp [dictCandidate, hi, ht]
      rw [noAdm_dict, hc, Bool.true_and] at hna
      obtain ⟨p, hp, hpf⟩ := entriesNoAdm_false config hna
      exact ⟨p.2, List.mem_append.2 (Or.inl (List.mem_reverse.2
        (List.mem_map.2 ⟨p, hp, rfl⟩))), hpf⟩
    · exact ⟨d, List.mem_append.2 (Or.inr hd), hna⟩
  | case3 best t l i hi ht hts =>
    intro _
    rw [find_loop]
    simp [hi, ht, hts]
  | case4 best t l i hi ht hts hbetter ih =>
    intro _
    rw [find_loop]
    simp only [Bool.not_eq_true] at ht hts
    simp [hi, ht, hts, hbetter]
    exact find_loop_isSome_of_best config _ (some i) rfl
  | case5 best t l i hi ht hts hbetter ih =>
    intro _
    cases best with
    | none => simp at hbetter
    | some b =>
      rw [find_loop]
      simp only [Bool.not_eq_true, Bool.or_eq_false_iff] at hbetter
      simp only [Bool.not_eq_true] at ht hts
      simp [hi, ht, hts, hbetter.2]
      exact find_loop_isSome_of_best config _ (some b) rfl
  | case6 best t l hi ih =>
    rintro ⟨d, hd, hna⟩
    rw [find_loop]
    simp only [hi]
    refine ih ?_
    rcases List.mem_cons.1 hd with rfl | hd
    · have hc : (dictCandidate config l).isNone = true := by
        simp [dictCandidate, hi]
      rw [noAdm_dict, hc, Bool.true_and] at hna
      obtain ⟨p, hp, hpf⟩ := entriesNoAdm_false config hna
      exact ⟨p.2, List.mem_append.2 (Or.inl (List.mem_reverse.2
        (List.mem_map.2 ⟨p, hp, rfl⟩))), hpf⟩
    · exact ⟨d, List.mem_append.2 (Or.inr hd), hna⟩
  | case7 best t xs ih =>
    rintro ⟨d, hd, hna⟩
    rw [find_loop]
    refine ih ?_
    rcases List.mem_cons.1 hd with rfl | hd
    · rw [noAdmissible] at hna
      obtain ⟨x, hx, hxf⟩ := docsNoAdm_false config hna
      exact ⟨x, List.mem_append.2 (Or.inl (List.mem_reverse.2 hx)), hxf⟩
    · exact ⟨d, List.mem_append.2 (Or.inr hd), hna⟩
  | case8 best d t hd ha ih =>
    rintro ⟨e, he, hna⟩
    rw [find_loop]
    · refine ih ?_
      rcases List.mem_cons.1 he with rfl | he
      · exfalso
        cases e with
        | dict l => exact hd l rfl
        | arr xs => exact ha xs rfl
        | str s => simp [noAdmissible] at hna
        | null => simp [noAdmissible] at hna
        | ismv mm => simp [noAdmissible] at hna
      · exact ⟨e, he, hna⟩
    · exact hd
    · exact ha

theorem find_none_iff_noAdm (obj : Doc) (config : Config) :
    find_most_restrictive_valid_ism obj config = none
      ↔ noAdmissible config obj = true := by
  constructor
  · intro h
    by_contra hn
    have hx : noAdmissible config obj = false := by
      cases hna : noAdmissible config obj with
      | true => exact absurd hna hn
      | false => rfl
    have := find_loop_isSome_of_exists config [obj] none
      ⟨obj, List.mem_singleton.2 rfl, hx⟩
    rw [find_most_restrictive_valid_ism] at h
    rw [h] at this
    cases this
  · intro h
    rw [find_most_restrictive_valid_ism]
    exact find_loop_all_noAdm config [obj] none
      (fun d hd => by rw [List.mem_singleton.1 hd]; exact h)


/-- Claim C5: whenever the locator returns a marking, that marking is not
forbidden; in particular the early-return branch for a `TS`-classified
candidate is unreachable and the locator never returns a `TS` marking. -/
theorem c5_locator_never_forbidden (obj : Doc) (config : Config) (m : Ism)
    (h : find_most_restrictive_valid_ism obj config = some m) :
    is_classif_too_high (some m) config = false ∧
    m.classification ≠ some "TS" := by
  have h1 : is_classif_too_high (some m) config = false := by
    refine find_loop_not_too_high config [obj] none ?_ m ?_
    · intro b hb; simp at hb
    · rw [find_most_restrictive_valid_ism] at h; exact h
  refine ⟨h1, ?_⟩
  intro hc
  simp [is_classif_too_high, hc] at h1

theorem c5_locator_never_forbidden_witness :
    find_most_restrictive_valid_ism
      (.dict [("ism", .ismv (some ⟨some "C", [], [], [], none⟩))])
      ⟨[], [], [], [], [("U",0),("C",1),("S",2)]⟩
      = some ⟨some "C", [], [], [], none⟩ ∧
    (is_classif_too_high (some ⟨some "C", [], [], [], none⟩)
        ⟨[], [], [], [], [("U",0),("C",1),("S",2)]⟩ = false ∧
      (⟨some "C", [], [], [], none⟩ : Ism).classification ≠ some "TS") := by
  have hfind : find_most_restrictive_valid_ism
      (.dict [("ism", .ismv (some ⟨some "C", [], [], [], none⟩))])
      ⟨[], [], [], [], [("U",0),("C",1),("S",2)]⟩
      = some ⟨some "C", [], [], [], none⟩ := by
    simp [find_most_restrictive_valid_ism, find_loop, keyFind, asIsm,
      is_classif_too_high, interNonempty]
  exact ⟨hfind, c5_locator_never_forbidden _ _ _ hfind⟩

/-- Claim C6: for a document in which every embedded marking is forbidden or
absent (or no marking exists at all), the locator returns `none` and
`apply_restrictions` returns the empty result — a normal outcome, computed
without any failure. -/
theorem c6_all_forbidden_empty_result (obj : Doc) (config : Config)
    (h : noAdmissible config obj = true) :
    find_most_restrictive_valid_ism obj config = none ∧
    apply_restrictions obj config = none := by
  have hf : find_most_restrictive_valid_ism obj config = none :=
    (find_none_iff_noAdm obj config).2 h
  exact ⟨hf, by simp [apply_restrictions, hf]⟩

theorem c6_all_forbidden_empty_result_witness :
    noAdmissible ⟨[], [], [], [], []⟩
      (.dict [("ism", .ismv (some ⟨some "TS", [], [], [], none⟩)),
        ("x", .str "v")]) = true ∧
    (find_most_restrictive_valid_ism
        (.dict [("ism", .ismv (some ⟨some "TS", [], [], [], none⟩)),
          ("x", .str "v")]) ⟨[], [], [], [], []⟩ = none ∧
      apply_restrictions
        (.dict [("ism", .ismv (some ⟨some "TS", [], [], [], none⟩)),
          ("x", .str "v")]) ⟨[], [], [], [], []⟩ = none) :=
  ⟨by decide, c6_all_forbidden_empty_result _ _ (by decide)⟩

theorem keyFind_cons (p : String × Doc) (t : List (String × Doc))
    (k : String) :
    keyFind (p :: t) k = if p.1 == k then some p.2 else keyFind t k := by
  rw [keyFind, List.find?]
  cases hp : p.1 == k <;> simp [hp, keyFind]

theorem keyFind_map_replace (k : String) (v : Doc) :
    ∀ l : List (String × Doc), l.any (fun p => p.1 == k) = true →
      keyFind (l.map (fun p => if p.1 == k then (k, v) else p)) k = some v := by
  intro l
  induction l with
  | nil => intro h; simp at h
  | cons p t ih =>
    intro h
    by_cases hp : p.1 = k
    · simp [List.map_cons, hp, keyFind_cons]
    · have hp' : (p.1 == k) = false := by simp [hp]
      have ht : t.any (fun q => q.1 == k) = true := by
        simp only [List.any_cons, hp', Bool.false_or] at h
        exact h
      simp only [List.map_cons, hp', Bool.false_eq_true, if_false,
        keyFind_cons]
      exact ih ht

theorem keyFind_append_single (k : String) (v : Doc) :
    ∀ l : List (String × Doc), l.any (fun p => p.1 == k) = false →
      keyFind (l ++ [(k, v)]) k = some v := by
  intro l
  induction l with
  | nil => simp [keyFind, List.find?]
  | cons p t ih =>
    intro h
    simp only [List.any_cons, Bool.or_eq_false_iff] at h
    simp only [List.cons_append, keyFind_cons, h.1, Bool.false_eq_true,
      if_false]
    exact ih h.2

theorem keyFind_setKey_self (l : List (String × Doc)) (k : String) (v : Doc) :
    keyFind (setKey l k v) k = some v := by
  rw [setKey]
  cases ha : l.any (fun p => p.1 == k) with
  | true => simp only [if_true]; exact keyFind_map_replace k v l ha
  | false => simp only [Bool.false_eq_true, if_false]; exact keyFind_append_single k v l ha

/-- Claim C7: when `apply_restrictions` returns a mapping, that mapping is the
pruned root with its `overallClassification` entry set to the marking the
locator found on the original document; when the pruned root is not a mapping
no stamp is applied and the pruned value is returned as is. -/
theorem c7_overall_classification_stamp (obj : Doc) (config : Config) (r : Doc)
    (h : apply_restrictions obj config = some r) :
    ∃ m, find_most_restrictive_valid_ism obj config = some m ∧
      ((∃ l, process_item config obj = .dict l ∧
          r = .dict (setKey l "overallClassification" (.ismv (some m))) ∧
          keyFind (setKey l "overallClassification" (.ismv (some m)))
            "overallClassification" = some (.ismv (some m))) ∨
        (r = process_item config obj ∧ ∀ l, r ≠ .dict l)) := by
  simp only [apply_restrictions] at h
  cases hf : find_most_restrictive_valid_ism obj config with
  | none => rw [hf] at h; simp at h
  | some m =>
    rw [hf] at h
    refine ⟨m, rfl, ?_⟩
    cases hp : process_item config obj with
    | dict l =>
      rw [hp] at h
      simp only [Option.some.injEq] at h
      exact Or.inl ⟨l, rfl, h.symm, keyFind_setKey_self l _ _⟩
    | null => rw [hp] at h; simp at h
    | arr xs =>
      rw [hp] at h
      simp only [Option.some.injEq] at h
      subst h
      exact Or.inr ⟨rfl, by intro l hc; cases hc⟩
    | str s =>
      rw [hp] at h
      simp only [Option.some.injEq] at h
      subst h
      exact Or.inr ⟨rfl, by intro l hc; cases hc⟩
    | ismv mm =>
      rw [hp] at h
      simp only [Option.some.injEq] at h
      subst h
      exact Or.inr ⟨rfl, by intro l hc; cases hc⟩

theorem c7_overall_classification_stamp_witness :
    apply_restrictions
      (.dict [("ism", .ismv (some ⟨some "C", [], [], [], none⟩))])
      ⟨[], [], [], [], [("U",0),("C",1),("S",2)]⟩
      = some (.dict [("ism", .ismv (some ⟨some "C", [], [], [], none⟩)),
          ("overallClassification", .ismv (some ⟨some "C", [], [], [], none⟩))]) ∧
    (∃ m, find_most_restrictive_valid_ism
        (.dict [("ism", .ismv (some ⟨some "C", [], [], [], none⟩))])
        ⟨[], [], [], [], [("U",0),("C",1),("S",2)]⟩ = some m ∧
      ((∃ l, process_item ⟨[], [], [], [], [("U",0),("C",1),("S",2)]⟩
            (.dict [("ism", .ismv (some ⟨some "C", [], [], [], none⟩))]) = .dict l ∧
          Doc.dict [("ism", .ismv (some ⟨some "C", [], [], [], none⟩)),
            ("overallClassification", .ismv (some ⟨some "C", [], [], [], none⟩))]
            = .dict (setKey l "overallClassification" (.ismv (some m))) ∧
          keyFind (setKey l "overallClassification" (.ismv (some m)))
            "overallClassification" = some (.ismv (some m))) ∨
        (Doc.dict [("ism", .ismv (some ⟨some "C", [], [], [], none⟩)),
            ("overallClassification", .ismv (some ⟨some "C", [], [], [], none⟩))]
            = process_item ⟨[], [], [], [], [("U",0),("C",1),("S",2)]⟩
              (.dict [("ism", .ismv (some ⟨some "C", [], [], [], none⟩))]) ∧
          ∀ l, Doc.dict [("ism", .ismv (some ⟨some "C", [], [], [], none⟩)),
            ("overallClassification", .ismv (some ⟨some "C", [], [], [], none⟩))]
            ≠ .dict l))) := by
  have h : apply_restrictions
      (.dict [("ism", .ismv (some ⟨some "C", [], [], [], none⟩))])
      ⟨[], [], [], [], [("U",0),("C",1),("S",2)]⟩
      = some (.dict [("ism", .ismv (some ⟨some "C", [], [], [], none⟩)),
          ("overallClassification", .ismv (some ⟨some "C", [], [], [], none⟩))]) := by
    simp [apply_restrictions, find_most_restrictive_valid_ism, find_loop,
      keyFind, asIsm, is_classif_too_high, interNonempty, process_item,
      processEntries, setKey]
  exact ⟨h, c7_overall_classification_stamp _ _ _ h⟩

mutual
theorem ff_process_id (config : Config) (d : Doc)
    (h : forbiddenFree config d = true) : process_item config d = d := by
  cases d with
  | dict l =>
    rw [forbiddenFree, Bool.and_eq_true_iff] at h
    have hd : dictForbidden config l = false := by simpa using h.1
    rw [process_item_dict, hd]
    simp only [Bool.false_eq_true, if_false]
    rw [ffEntries_id config l h.2]
  | arr xs =>
    rw [forbiddenFree] at h
    simp only [process_item]
    rw [ffDocs_id config xs h]
  | str s => rfl
  | null => rfl
  | ismv m => rfl

theorem ffEntries_id (config : Config) (l : List (String × Doc))
    (h : entriesFF config l = true) : processEntries config l = l := by
  cases l with
  | nil => rfl
  | cons p t =>
    rw [entriesFF, Bool.and_eq_true_iff] at h
    rw [processEntries, ff_process_id config p.2 h.1, ffEntries_id config t h.2]

theorem ffDocs_id (config : Config) (xs : List Doc)
    (h : docsFF config xs = true) : processDocs config xs = xs := by
  cases xs with
  | nil => rfl
  | cons d t =>
    rw [docsFF, Bool.and_eq_true_iff] at h
    rw [processDocs, ff_process_id config d h.1, ffDocs_id config t h.2]
end

theorem keyFind_map_replace_ne (k k' : String) (v : Doc)
    (hk : (k == k') = false) :
    ∀ l : List (String × Doc),
      keyFind (l.map (fun p => if p.1 == k then (k, v) else p)) k'
        = keyFind l k' := by
  intro l
  induction l with
  | nil => rfl
  | cons p t ih =>
    by_cases hp : p.1 = k
    · have hp' : (p.1 == k) = true := by simp [hp]
      have hpk : (p.1 == k') = false := by simp [hp]; simpa using hk
      simp only [List.map_cons, hp', if_true, keyFind_cons, hk, hpk,
        Bool.false_eq_true, if_false]
      exact ih
    · have hp' : (p.1 == k) = false := by simp [hp]
      simp only [List.map_cons, hp', Bool.false_eq_true, if_false,
        keyFind_cons]
      cases hq : p.1 == k' with
      | true => simp only [hq, if_true]
      | false => simp only [hq, Bool.false_eq_true, if_false]; exact ih

theorem keyFind_append_ne (k k' : String) (v : Doc)
    (hk : (k == k') = false) :
    ∀ l : List (String × Doc),
      keyFind (l ++ [(k, v)]) k' = keyFind l k' := by
  intro l
  induction l with
  | nil => simp [keyFind_cons, hk, keyFind]
  | cons p t ih =>
    simp only [List.cons_append, keyFind_cons]
    cases hq : p.1 == k' <;> simp [ih]

theorem keyFind_setKey_ne (l : List (String × Doc)) (k k' : String) (v : Doc)
    (hk : (k == k') = false) :
    keyFind (setKey l k v) k' = keyFind l k' := by
  rw [setKey]
  cases ha : l.any (fun p => p.1 == k) with
  | true => simp only [if_true]; exact keyFind_map_replace_ne k k' v hk l
  | false =>
    simp only [Bool.false_eq_true, if_false]
    exact keyFind_append_ne k k' v hk l

theorem dictForbidden_setKey (config : Config) (l : List (String × Doc))
    (k : String) (v : Doc) (hk : (k == "ism") = false) :
    dictForbidden config (setKey l k v) = dictForbidden config l := by
  rw [dictForbidden, dictForbidden, keyFind_setKey_ne l k "ism" v hk]

theorem entriesFF_map_replace (config : Config) (k : String) (v : Doc)
    (hv : forbiddenFree config v = true) :
    ∀ l : List (String × Doc), entriesFF config l = true →
      entriesFF config (l.map (fun p => if p.1 == k then (k, v) else p))
        = true := by
  intro l
  induction l with
  | nil => intro _; rfl
  | cons p t ih =>
    intro h
    rw [entriesFF, Bool.and_eq_true_iff] at h
    cases hp : p.1 == k with
    | true =>
      simp only [List.map_cons, hp, if_true, entriesFF,
        Bool.and_eq_true_iff]
      exact ⟨hv, ih h.2⟩
    | false =>
      simp only [List.map_cons, hp, Bool.false_eq_true, if_false, entriesFF,
        Bool.and_eq_true_iff]
      exact ⟨h.1, ih h.2⟩

theorem entriesFF_append_single (config : Config) (k : String) (v : Doc)
    (hv : forbiddenFree config v = true) :
    ∀ l : List (String × Doc), entriesFF config l = true →
      entriesFF config (l ++ [(k, v)]) = true := by
  intro l
  induction l with
  | nil => intro _; simp [entriesFF, hv]
  | cons p t ih =>
    intro h
    rw [entriesFF, Bool.and_eq_true_iff] at h
    simp [entriesFF, h.1, ih h.2]

theorem entriesFF_setKey (config : Config) (l : List (String × Doc))
    (k : String) (v : Doc) (hl : entriesFF config l = true)
    (hv : forbiddenFree config v = true) :
    entriesFF config (setKey l k v) = true := by
  rw [setKey]
  cases ha : l.any (fun p => p.1 == k) with
  | true => simp only [if_true]; exact entriesFF_map_replace config k v hv l hl
  | false =>
    simp only [Bool.false_eq_true, if_false]
    exact entriesFF_append_single config k v hv l hl

theorem apply_some_forbiddenFree (obj : Doc) (config : Config) (r : Doc)
    (h : apply_restrictions obj config = some r) :
    forbiddenFree config r = true := by
  simp only [apply_restrictions] at h
  cases hf : find_most_restrictive_valid_ism obj config with
  | none => rw [hf] at h; simp at h
  | some m =>
    rw [hf] at h
    have hp0 := process_forbiddenFree config obj
    cases hp : process_item config obj with
    | dict l =>
      rw [hp] at h
      simp only [Option.some.injEq] at h
      subst h
      rw [hp, forbiddenFree, Bool.and_eq_true_iff] at hp0
      rw [forbiddenFree, Bool.and_eq_true_iff]
      refine ⟨?_, ?_⟩
      · rw [dictForbidden_setKey config l _ _ (by decide)]
        exact hp0.1
      · exact entriesFF_setKey config l _ _ hp0.2 rfl
    | null => rw [hp] at h; simp at h
    | arr xs =>
      rw [hp] at h
      simp only [Option.some.injEq] at h
      subst h
      rw [hp] at hp0
      exact hp0
    | str s =>
      rw [hp] at h
      simp only [Option.some.injEq] at h
      subst h
      rw [hp] at hp0
      exact hp0
    | ismv mm =>
      rw [hp] at h
      simp only [Option.some.injEq] at h
      subst h
      rw [hp] at hp0
      exact hp0

theorem apply_some_ne_null (obj : Doc) (config : Config) (r : Doc)
    (h : apply_restrictions obj config = some r) : r ≠ Doc.null := by
  simp only [apply_restrictions] at h
  cases hf : find_most_restrictive_valid_ism obj config with
  | none => rw [hf] at h; simp at h
  | some m =>
    rw [hf] at h
    cases hp : process_item config obj with
    | dict l =>
      rw [hp] at h
      simp only [Option.some.injEq] at h
      subst h
      intro hc; cases hc
    | null => rw [hp] at h; simp at h
    | arr xs =>
      rw [hp] at h; simp only [Option.some.injEq] at h; subst h
      intro hc; cases hc
    | str s =>
      rw [hp] at h; simp only [Option.some.injEq] at h; subst h
      intro hc; cases hc
    | ismv mm =>
      rw [hp] at h; simp only [Option.some.injEq] at h; subst h
      intro hc; cases hc

/-- The `overallClassification` restamp the redactor applies when the root is
a mapping; other roots are returned unchanged. -/
def restamp (r : Doc) (m : Ism) : Doc :=
  match r with
  | .dict l => .dict (setKey l "overallClassification" (.ismv (some m)))
  | x => x

/-- Claim C8, counterexample: redaction is not idempotent — for a document
whose only admissible marking sits inside a subtree pruned because of a
forbidden ancestor marking, the first redaction returns a mapping but the
second redaction of that output returns the empty result (no
`overallClassification` at all, rather than the same one). -/
theorem c8_counterexample :
    apply_restrictions
      (.dict [("a", .dict [("ism", .ismv (some ⟨some "TS", [], [], [], none⟩)),
        ("b", .dict [("ism", .ismv (some ⟨some "C", [], [], [], none⟩))])])])
      ⟨[], [], [], [], [("U",0),("C",1),("S",2)]⟩
      = some (.dict [("a", .null),
          ("overallClassification", .ismv (some ⟨some "C", [], [], [], none⟩))]) ∧
    apply_restrictions
      (.dict [("a", .null),
        ("overallClassification", .ismv (some ⟨some "C", [], [], [], none⟩))])
      ⟨[], [], [], [], [("U",0),("C",1),("S",2)]⟩ = none := by
  constructor
  · simp [apply_restrictions, find_most_restrictive_valid_ism, find_loop,
      keyFind, asIsm, is_classif_too_high, interNonempty, process_item,
      processEntries, setKey]
  · simp [apply_restrictions, find_most_restrictive_valid_ism, find_loop,
      keyFind, asIsm]

/-- Claim C8 (amended): a second redaction performs no further pruning — the
pruning pass leaves any output of `apply_restrictions` unchanged — and the
second redaction differs from that output at most in the
`overallClassification` restamp; but the locator may find no marking in the
output (the counterexample: the only admissible marking lay inside a pruned
subtree), in which case the second redaction returns the empty result instead
of the same marking. -/
theorem c8_second_redaction (obj : Doc) (config : Config) (r : Doc)
    (h : apply_restrictions obj config = some r) :
    process_item config r = r ∧
    apply_restrictions r config
      = (find_most_restrictive_valid_ism r config).map (restamp r) := by
  have hff := apply_some_forbiddenFree obj config r h
  have hid := ff_process_id config r hff
  have hnn := apply_some_ne_null obj config r h
  refine ⟨hid, ?_⟩
  simp only [apply_restrictions]
  cases hf : find_most_restrictive_valid_ism r config with
  | none => simp
  | some m' =>
    rw [hid]
    cases r with
    | dict l => simp [restamp]
    | null => exact absurd rfl hnn
    | arr xs => simp [restamp]
    | str s => simp [restamp]
    | ismv mm => simp [restamp]

theorem c8_second_redaction_witness :
    apply_restrictions
      (.dict [("ism", .ismv (some ⟨some "C", [], [], [], none⟩))])
      ⟨[], [], [], [], [("U",0),("C",1),("S",2)]⟩
      = some (.dict [("ism", .ismv (some ⟨some "C", [], [], [], none⟩)),
          ("overallClassification", .ismv (some ⟨some "C", [], [], [], none⟩))]) ∧
    (process_item ⟨[], [], [], [], [("U",0),("C",1),("S",2)]⟩
        (.dict [("ism", .ismv (some ⟨some "C", [], [], [], none⟩)),
          ("overallClassification", .ismv (some ⟨some "C", [], [], [], none⟩))])
      = .dict [("ism", .ismv (some ⟨some "C", [], [], [], none⟩)),
          ("overallClassification", .ismv (some ⟨some "C", [], [], [], none⟩))] ∧
    apply_restrictions
        (.dict [("ism", .ismv (some ⟨some "C", [], [], [], none⟩)),
          ("overallClassification", .ismv (some ⟨some "C", [], [], [], none⟩))])
        ⟨[], [], [], [], [("U",0),("C",1),("S",2)]⟩
      = (find_most_restrictive_valid_ism
          (.dict [("ism", .ismv (some ⟨some "C", [], [], [], none⟩)),
            ("overallClassification", .ismv (some ⟨some "C", [], [], [], none⟩))])
          ⟨[], [], [], [], [("U",0),("C",1),("S",2)]⟩).map
          (restamp (.dict [("ism", .ismv (some ⟨some "C", [], [], [], none⟩)),
            ("overallClassification", .ismv (some ⟨some "C", [], [], [], none⟩))]))) := by
  have h : apply_restrictions
      (.dict [("ism", .ismv (some ⟨some "C", [], [], [], none⟩))])
      ⟨[], [], [], [], [("U",0),("C",1),("S",2)]⟩
      = some (.dict [("ism", .ismv (some ⟨some "C", [], [], [], none⟩)),
          ("overallClassification", .ismv (some ⟨some "C", [], [], [], none⟩))]) := by
    simp [apply_restrictions, find_most_restrictive_valid_ism, find_loop,
      keyFind, asIsm, is_classif_too_high, interNonempty, process_item,
      processEntries, setKey]
  exact ⟨h, c8_second_redaction _ _ _ h⟩

theorem keyFind_perm (l l' : List (String × Doc)) (k : String)
    (hnd : (l.map Prod.fst).Nodup) (hp : l.Perm l') :
    keyFind l k = keyFind l' k := by
  cases hf : l.find? (fun p => p.1 == k) with
  | none =>
    have h1 := List.find?_eq_none.1 hf
    have h2 : l'.find? (fun p => p.1 == k) = none :=
      List.find?_eq_none.2 (fun x hx => h1 x (hp.mem_iff.2 hx))
    rw [keyFind, keyFind, hf, h2]
  | some q =>
    have hq1 : q ∈ l := List.mem_of_find?_eq_some hf
    have hq2 := List.find?_some hf
    have hs : (l'.find? (fun p => p.1 == k)).isSome :=
      List.find?_isSome.2 ⟨q, hp.mem_iff.1 hq1, hq2⟩
    cases hf' : l'.find? (fun p => p.1 == k) with
    | none => rw [hf'] at hs; cases hs
    | some q' =>
      have hq1' : q' ∈ l := hp.mem_iff.2 (List.mem_of_find?_eq_some hf')
      have hq2' := List.find?_some hf'
      have heq : q = q' := by
        refine List.inj_on_of_nodup_map hnd hq1 hq1' ?_
        have e1 : q.1 = k := by simpa using hq2
        have e2 : q'.1 = k := by simpa using hq2'
        rw [e1, e2]
      rw [keyFind, keyFind, hf, hf', heq]

theorem entriesNoAdm_perm (config : Config) {l l' : List (String × Doc)}
    (hp : l.Perm l') : entriesNoAdm config l = entriesNoAdm config l' := by
  induction hp with
  | nil => rfl
  | cons x _ ih => rw [entriesNoAdm, entriesNoAdm, ih]
  | swap x y t =>
    rw [entriesNoAdm, entriesNoAdm, entriesNoAdm, entriesNoAdm,
      Bool.and_left_comm]
  | trans _ _ ih1 ih2 => rw [ih1, ih2]

mutual
/-- Two documents differ only by permutations of mapping entries: scalars are
equal, sequences are related pointwise, and a mapping (with distinct keys) is
related to a reordering of a pointwise-related entry list. -/
inductive DocPerm : Doc → Doc → Prop where
  | str (s : String) : DocPerm (.str s) (.str s)
  | null : DocPerm .null .null
  | ismv (m : Option Ism) : DocPerm (.ismv m) (.ismv m)
  | arr {xs ys : List Doc} : DocsPerm xs ys → DocPerm (.arr xs) (.arr ys)
  | dict {l1 l2 l3 : List (String × Doc)} :
      (l1.map Prod.fst).Nodup → EntriesPerm l1 l2 → l2.Perm l3 →
      DocPerm (.dict l1) (.dict l3)

/-- Pointwise `DocPerm` on sequences. -/
inductive DocsPerm : List Doc → List Doc → Prop where
  | nil : DocsPerm [] []
  | cons {x y : Doc} {xs ys : List Doc} :
      DocPerm x y → DocsPerm xs ys → DocsPerm (x :: xs) (y :: ys)

/-- Pointwise `DocPerm` on mapping entries (same keys in the same order). -/
inductive EntriesPerm : List (String × Doc) → List (String × Doc) → Prop where
  | nil : EntriesPerm [] []
  | cons {k : String} {v1 v2 : Doc} {t1 t2 : List (String × Doc)} :
      DocPerm v1 v2 → EntriesPerm t1 t2 →
      EntriesPerm ((k, v1) :: t1) ((k, v2) :: t2)
end

theorem docPerm_asIsm {v1 v2 : Doc} (h : DocPerm v1 v2) :
    asIsm v1 = asIsm v2 := by
  cases h <;> rfl

theorem entriesPerm_keys :
    ∀ {l1 l2 : List (String × Doc)}, EntriesPerm l1 l2 →
      l1.map Prod.fst = l2.map Prod.fst := by
  intro l1
  induction l1 with
  | nil => intro l2 h; cases h; rfl
  | cons p t ih =>
    intro l2 h
    cases h with
    | cons hd htl => simpa using ih htl

theorem entriesPerm_ismVal :
    ∀ {l1 l2 : List (String × Doc)}, EntriesPerm l1 l2 → ∀ k : String,
      asIsm ((keyFind l1 k).getD .null)
        = asIsm ((keyFind l2 k).getD .null) := by
  intro l1
  induction l1 with
  | nil => intro l2 h k; cases h; rfl
  | cons p t ih =>
    intro l2 h k
    cases h with
    | @cons k0 v1 v2 t1 t2 hd htl =>
      rw [keyFind_cons, keyFind_cons]
      cases hk : k0 == k with
      | true => simp only [hk, if_true, Option.getD]; exact docPerm_asIsm hd
      | false =>
        simp only [hk, Bool.false_eq_true, if_false]
        exact ih htl k

mutual
theorem docPerm_noAdm (config : Config) {d1 d2 : Doc} (h : DocPerm d1 d2) :
    noAdmissible config d1 = noAdmissible config d2 :=
  match h with
  | .str s => rfl
  | .null => rfl
  | .ismv m => rfl
  | .arr hxs => by
    rw [noAdmissible, noAdmissible]
    exact docsPerm_noAdm config hxs
  | @DocPerm.dict l1 l2 l3 hnd hep hperm => by
    rw [noAdm_dict, noAdm_dict]
    have hnd2 : (l2.map Prod.fst).Nodup := by
      rw [← entriesPerm_keys hep]; exact hnd
    have hk23 : keyFind l2 "ism" = keyFind l3 "ism" :=
      keyFind_perm l2 l3 "ism" hnd2 hperm
    have hc12 : dictCandidate config l1 = dictCandidate config l2 := by
      rw [dictCandidate, dictCandidate, entriesPerm_ismVal hep "ism"]
    have hc23 : dictCandidate config l2 = dictCandidate config l3 := by
      rw [dictCandidate, dictCandidate, hk23]
    rw [hc12, hc23, entriesPerm_noAdm config hep,
      entriesNoAdm_perm config hperm]

theorem docsPerm_noAdm (config : Config) {xs ys : List Doc}
    (h : DocsPerm xs ys) : docsNoAdm config xs = docsNoAdm config ys :=
  match h with
  | .nil => rfl
  | .cons hd htl => by
    rw [docsNoAdm, docsNoAdm, docPerm_noAdm config hd,
      docsPerm_noAdm config htl]

theorem entriesPerm_noAdm (config : Config) {l1 l2 : List (String × Doc)}
    (h : EntriesPerm l1 l2) :
    entriesNoAdm config l1 = entriesNoAdm config l2 :=
  match h with
  | .nil => rfl
  | .cons hd htl => by
    rw [entriesNoAdm, entriesNoAdm, docPerm_noAdm config hd,
      entriesPerm_noAdm config htl]
end

/-- Claim C4, counterexample: two documents that differ only by swapping two
top-level mapping entries make the locator return two different markings —
the two embedded markings are admissible, distinct, and tied (incomparable)
under the comparator, so whichever the traversal reaches first wins. -/
theorem c4_counterexample :
    ([("x", Doc.dict [("ism", .ismv (some ⟨some "C", [], [], [], some "A"⟩))]),
      ("y", Doc.dict [("ism", .ismv (some ⟨some "C", [], [], [], some "B"⟩))])] :
        List (String × Doc)).Perm
      [("y", Doc.dict [("ism", .ismv (some ⟨some "C", [], [], [], some "B"⟩))]),
       ("x", Doc.dict [("ism", .ismv (some ⟨some "C", [], [], [], some "A"⟩))])] ∧
    find_most_restrictive_valid_ism
      (.dict [("x", .dict [("ism", .ismv (some ⟨some "C", [], [], [], some "A"⟩))]),
        ("y", .dict [("ism", .ismv (some ⟨some "C", [], [], [], some "B"⟩))])])
      ⟨[], [], [], [], [("U",0),("C",1),("S",2)]⟩
      ≠ find_most_restrictive_valid_ism
        (.dict [("y", .dict [("ism", .ismv (some ⟨some "C", [], [], [], some "B"⟩))]),
          ("x", .dict [("ism", .ismv (some ⟨some "C", [], [], [], some "A"⟩))])])
        ⟨[], [], [], [], [("U",0),("C",1),("S",2)]⟩ := by
  constructor
  · exact List.Perm.swap _ _ _
  · simp [find_most_restrictive_valid_ism, find_loop, keyFind, asIsm,
      is_classif_too_high, interNonempty, is_more_restrictive, setInter,
      setEq, setCard, lookupOrd]

/-- Claim C4 (amended): what is traversal-order independent is whether any
admissible marking is located — for two documents differing only by
permutations of mapping entries (distinct keys, values related pointwise),
the locator returns the empty result on one iff it does on the other; the
identity of the located marking may differ when distinct admissible markings
are incomparable under the comparator (see the counterexample). -/
theorem c4_found_iff_of_perm (config : Config) {d1 d2 : Doc}
    (h : DocPerm d1 d2) :
    (find_most_restrictive_valid_ism d1 config = none
      ↔ find_most_restrictive_valid_ism d2 config = none) := by
  rw [find_none_iff_noAdm, find_none_iff_noAdm, docPerm_noAdm config h]

theorem c4_found_iff_of_perm_witness :
    DocPerm
      (.dict [("x", .dict [("ism", .ismv (some ⟨some "C", [], [], [], some "A"⟩))]),
        ("y", .dict [("ism", .ismv (some ⟨some "C", [], [], [], some "B"⟩))])])
      (.dict [("y", .dict [("ism", .ismv (some ⟨some "C", [], [], [], some "B"⟩))]),
        ("x", .dict [("ism", .ismv (some ⟨some "C", [], [], [], some "A"⟩))])]) ∧
    (find_most_restrictive_valid_ism
        (.dict [("x", .dict [("ism", .ismv (some ⟨some "C", [], [], [], some "A"⟩))]),
          ("y", .dict [("ism", .ismv (some ⟨some "C", [], [], [], some "B"⟩))])])
        ⟨[], [], [], [], [("U",0),("C",1),("S",2)]⟩ = none
      ↔ find_most_restrictive_valid_ism
        (.dict [("y", .dict [("ism", .ismv (some ⟨some "C", [], [], [], some "B"⟩))]),
          ("x", .dict [("ism", .ismv (some ⟨some "C", [], [], [], some "A"⟩))])])
        ⟨[], [], [], [], [("U",0),("C",1),("S",2)]⟩ = none) := by
  have hx : DocPerm
      (.dict [("ism", .ismv (some ⟨some "C", [], [], [], some "A"⟩))])
      (.dict [("ism", .ismv (some ⟨some "C", [], [], [], some "A"⟩))]) :=
    DocPerm.dict (by decide)
      (EntriesPerm.cons (DocPerm.ismv _) EntriesPerm.nil) (List.Perm.refl _)
  have hy : DocPerm
      (.dict [("ism", .ismv (some ⟨some "C", [], [], [], some "B"⟩))])
      (.dict [("ism", .ismv (some ⟨some "C", [], [], [], some "B"⟩))]) :=
    DocPerm.dict (by decide)
      (EntriesPerm.cons (DocPerm.ismv _) EntriesPerm.nil) (List.Perm.refl _)
  have hperm : DocPerm
      (.dict [("x", .dict [("ism", .ismv (some ⟨some "C", [], [], [], some "A"⟩))]),
        ("y", .dict [("ism", .ismv (some ⟨some "C", [], [], [], some "B"⟩))])])
      (.dict [("y", .dict [("ism", .ismv (some ⟨some "C", [], [], [], some "B"⟩))]),
        ("x", .dict [("ism", .ismv (some ⟨some "C", [], [], [], some "A"⟩))])]) :=
    DocPerm.dict (by decide)
      (EntriesPerm.cons hx (EntriesPerm.cons hy EntriesPerm.nil))
      (List.Perm.swap _ _ _)
  exact ⟨hperm, c4_found_iff_of_perm _ hperm⟩
